import Mathlib

/-!
Verification of the in-page ATS autofill core: a shallow embedding of the
platform detector (`ats-detector`), the resume tailor (`resume-tailor`),
the job extractor (`job-extractor`) and the form filler (`form-filler`)
from the repository's Chrome-extension content scripts, together with
theorems checking the specification's claims against those embeddings.

Machine strings are embedded as Lean `String`/`List Char`; JavaScript's
loosely typed values are embedded as the `JSValue` sum; JavaScript regular
expressions are embedded only over the fragment of regex syntax that the
code in question actually produces (literals, escapes, `.`, postfix `*`).
-/

set_option maxHeartbeats 4000000

namespace JobSearch

/-! ## JavaScript-style base values -/

/-- Embedding of the JavaScript values the form filler manipulates:
`undefined`, `null`, booleans, (integer) numbers and strings. -/
inductive JSValue
  | undef
  | nullv
  | boolv (b : Bool)
  | numv (n : Int)
  | strv (s : String)
deriving DecidableEq

/-- JavaScript truthiness test restricted to `JSValue`:
`undefined`, `null`, `false`, `0` and the empty string are falsy. -/
def jsFalsy : JSValue → Bool
  | .undef => true
  | .nullv => true
  | .boolv b => !b
  | .numv n => n == 0
  | .strv s => s == ""

/-! ## Configuration data model (`ats-selectors.js` shapes) -/

/-- Shape of a `path` field in a selector config: either one locator string
or an array of locator strings (the code checks `Array.isArray`). -/
inductive PathSpec
  | single (p : String)
  | multi (ps : List String)
deriving DecidableEq

/-- Shape of a `values` field: either the name of a global transform table
or an inline object used as a lookup table. -/
inductive ValueMap
  | named (transformName : String)
  | table (entries : List (String × JSValue))
deriving DecidableEq

/-- One step of a declared action sequence (`actions` array entries in the
selector configuration), with the optional fields the form filler reads. -/
structure FillAction where
  method : Option String := none
  path : Option String := none
  delay : Option Int := none
  time : Option Int := none
  allowFailure : Bool := false
  event : Option String := none
deriving DecidableEq

/-- Object-shaped selector config (`{ path, method, values, actions }`). -/
structure ComplexConfig where
  path : PathSpec
  method : Option String := none
  values : Option ValueMap := none
  actions : Option (List FillAction) := none
deriving DecidableEq

/-- One candidate selector config: a bare locator string or an object. -/
inductive SelectorConfig
  | simple (selector : String)
  | complex (cfg : ComplexConfig)
deriving DecidableEq

/-- Value stored for one field in `inputSelectors`: the code accepts a
single config or an array of configs (`Array.isArray(selectorConfigs)`). -/
inductive SelectorEntry
  | one (c : SelectorConfig)
  | many (cs : List SelectorConfig)
deriving DecidableEq

/-- Per-platform configuration, restricted to the fields the detector and
the form filler read.  `inputSelectors` is a JavaScript `Map`, embedded as
an association list in insertion order. -/
structure ATSConfig where
  urls : Option (List String) := none
  urlsExcluded : Option (List String) := none
  defaultMethod : Option String := none
  inputSelectors : List (String × SelectorEntry) := []
deriving DecidableEq

/-- Detected platform: the `{ name, config }` record `detect` returns. -/
structure ATS where
  name : String
  config : ATSConfig
deriving DecidableEq

/-! ## ATSDetector (`src/unnamed/part_003`)

`matchPattern` builds a regex source string by four successive global
string replacements and then runs a case-insensitive unanchored
`RegExp.test`.  The replacements are embedded verbatim; the resulting
regex source only ever contains literal characters, backslash escapes,
`.` and postfix `*`, so the regex interpreter below covers that fragment. -/

/-- Replace every occurrence of character `c` by the string `repl`
(embedding of `String.prototype.replace` with a global single-char regex). -/
def replaceChar (c : Char) (repl : List Char) : List Char → List Char
  | [] => []
  | d :: rest =>
      if d = c then repl ++ replaceChar c repl rest
      else d :: replaceChar c repl rest

/-- The regex source built by `matchPattern`/`isExcluded`:
`.replace(/\*/g, ".*").replace(/\?/g, ".").replace(/\//g, "\\/").replace(/\./g, "\\.")`
applied in exactly that order.  Note that the `.` characters introduced by
the first two replacements are escaped again by the final replacement. -/
def globToRegexChars (p : List Char) : List Char :=
  replaceChar '.' ['\\', '.']
    (replaceChar '/' ['\\', '/']
      (replaceChar '?' ['.']
        (replaceChar '*' ['.', '*'] p)))

/-- Atom of the produced regex fragment: `.` or a literal character. -/
inductive RegexAtom
  | anyChar
  | lit (c : Char)
deriving DecidableEq

/-- Read the regex source into a list of atoms, each with a flag telling
whether it carries a postfix `*`.  Escaped characters are literals. -/
def parseRegex : List Char → List (RegexAtom × Bool)
  | [] => []
  | '\\' :: c :: '*' :: rest => (.lit c, true) :: parseRegex rest
  | '\\' :: c :: rest => (.lit c, false) :: parseRegex rest
  | '.' :: '*' :: rest => (.anyChar, true) :: parseRegex rest
  | '.' :: rest => (.anyChar, false) :: parseRegex rest
  | c :: '*' :: rest => (.lit c, true) :: parseRegex rest
  | c :: rest => (.lit c, false) :: parseRegex rest

/-- Case-insensitive atom match (the regexes are built with the `i` flag). -/
def atomMatch : RegexAtom → Char → Bool
  | .anyChar, _ => true
  | .lit c, d => c.toLower == d.toLower

/-- Backtracking loop for a starred atom: try every split point at which
the starred atom stops repeating and the continuation `k` takes over.
Whether a match exists does not depend on the order the splits are tried,
so this embeds the regex engine's greedy star faithfully for `test`. -/
def starLoop (a : RegexAtom) (k : List Char → Bool) : List Char → Bool
  | [] => k []
  | c :: s => k (c :: s) || (atomMatch a c && starLoop a k s)

/-- Match a parsed regex against a prefix of `s` (the match may end before
the end of `s`, as an unanchored `RegExp.test` requires), with
backtracking for starred atoms. -/
def reMatchItems : List (RegexAtom × Bool) → List Char → Bool
  | [], _ => true
  | (a, false) :: items, s =>
      match s with
      | [] => false
      | c :: s' => atomMatch a c && reMatchItems items s'
  | (a, true) :: items, s => starLoop a (reMatchItems items) s

/-- Unanchored test (`RegExp.prototype.test`): try the match at every
start position of the subject string. -/
def reTest (items : List (RegexAtom × Bool)) : List Char → Bool
  | [] => reMatchItems items []
  | c :: s => reMatchItems items (c :: s) || reTest items s

/-- Embedding of `ATSDetector.matchPattern(url, hostname, pattern)`.  The
`hostname` argument is accepted and ignored, exactly as in the source. -/
def matchPattern (url _hostname pattern : String) : Bool :=
  reTest (parseRegex (globToRegexChars pattern.data)) url.data

/-- Embedding of `ATSDetector.matchesUrl`: false when `config.urls` is
absent, otherwise true iff some inclusion pattern matches. -/
def matchesUrl (url hostname : String) (config : ATSConfig) : Bool :=
  match config.urls with
  | none => false
  | some pats => pats.any (fun pat => matchPattern url hostname pat)

/-- Embedding of `ATSDetector.isExcluded`: false when `config.urlsExcluded`
is absent, otherwise true iff some exclusion pattern matches (the source
repeats the same pattern-to-regex transformation inline). -/
def isExcluded (url : String) (config : ATSConfig) : Bool :=
  match config.urlsExcluded with
  | none => false
  | some pats =>
      pats.any (fun pat => reTest (parseRegex (globToRegexChars pat.data)) url.data)

/-- Embedding of `ATSDetector.detect`: walk the registry in order
(`Object.entries` insertion order), return the first platform whose URL
patterns match and which is not excluded; `none` when no platform fits. -/
def detect (url hostname : String) : List (String × ATSConfig) → Option (String × ATSConfig)
  | [] => none
  | (name, config) :: rest =>
      if matchesUrl url hostname config then
        if isExcluded url config then detect url hostname rest
        else some (name, config)
      else detect url hostname rest

/-! ## Specified wildcard semantics (for checking C1)

The specification states that a URL matches an inclusion pattern iff it
structurally conforms to the pattern under the semantics `*` = any run of
characters, `?` = exactly one character, other characters literal,
case-insensitively.  `globMatch` is written from those words, to be
compared against `matchPattern` above. -/

/-- Helper for the `*` wildcard: the rest of the pattern (continuation
`k`) may take over after `*` has absorbed any run of characters. -/
def globStar (k : List Char → Bool) : List Char → Bool
  | [] => k []
  | c :: s => k (c :: s) || globStar k s

/-- Specified glob semantics: anchored, case-insensitive full match of the
subject against the pattern with `*` and `?` wildcards. -/
def globMatch : List Char → List Char → Bool
  | [], s => s.isEmpty
  | '*' :: p, s => globStar (globMatch p) s
  | '?' :: p, s =>
      match s with
      | [] => false
      | _ :: s' => globMatch p s'
  | c :: p, s =>
      match s with
      | [] => false
      | d :: s' => (c.toLower == d.toLower) && globMatch p s'

/-- Specified relation: the URL structurally conforms to the pattern. -/
def specGlobMatches (url pattern : String) : Bool :=
  globMatch pattern.data url.data

/-! ## ResumeTailor (`resume-tailor.js`) -/

/-- Job posting as the tailor consumes it (only `description` is read by
the functions under verification); `Option JobPosting` models the
`jobDescription?.` optional chaining. -/
structure JobPosting where
  description : String
deriving DecidableEq

/-- Case-sensitive check that `sub` starts the character list. -/
def startsWithChars : List Char → List Char → Bool
  | [], _ => true
  | _ :: _, [] => false
  | c :: cs, d :: ds => c == d && startsWithChars cs ds

/-- Occurrence of `sub` anywhere in the character list. -/
def containsChars (sub : List Char) : List Char → Bool
  | [] => sub.isEmpty
  | c :: rest => startsWithChars sub (c :: rest) || containsChars sub rest

/-- Embedding of `String.prototype.includes` (the empty string is a
substring of every string, as in JavaScript). -/
def jsIncludes (s sub : String) : Bool :=
  containsChars sub.data s.data

/-- Embedding of `String.prototype.toLowerCase` (character-wise lower
casing, written over the character list so that it evaluates by kernel
reduction). -/
def jsToLower (s : String) : String :=
  String.mk (s.data.map Char.toLower)

/-- Word character for the tokenizer regex `\W+` (JavaScript `\w`). -/
def jsWordChar (c : Char) : Bool :=
  ('a' ≤ c && c ≤ 'z') || ('A' ≤ c && c ≤ 'Z') || ('0' ≤ c && c ≤ '9') || c == '_'

/-- State machine for `text.split(/\W+/)`: `some cur` means a segment is
being accumulated (reversed), `none` means we are inside a separator run
whose boundary segment has already been emitted. -/
def splitNonWordAux : List Char → Option (List Char) → List String
  | [], some cur => [String.mk cur.reverse]
  | [], none => [""]
  | c :: rest, some cur =>
      if jsWordChar c then splitNonWordAux rest (some (c :: cur))
      else String.mk cur.reverse :: splitNonWordAux rest none
  | c :: rest, none =>
      if jsWordChar c then splitNonWordAux rest (some [c])
      else splitNonWordAux rest none

/-- Embedding of `text.split(/\W+/)`, including the empty segments
JavaScript produces at a leading or trailing separator run. -/
def jsSplitNonWord (s : String) : List String :=
  splitNonWordAux s.data (some [])

/-- Increment the count of `w` in the frequency association list,
preserving first-insertion key order (JavaScript object property update). -/
def bumpFreq (w : String) : List (String × Nat) → List (String × Nat)
  | [] => [(w, 1)]
  | (w', n) :: rest =>
      if w' == w then (w', n + 1) :: rest else (w', n) :: bumpFreq w rest

/-- The loop `for (word of words) if (word.length > 3) frequency[word]++`. -/
def buildFrequency : List String → List (String × Nat) → List (String × Nat)
  | [], acc => acc
  | w :: ws, acc =>
      if w.length > 3 then buildFrequency ws (bumpFreq w acc)
      else buildFrequency ws acc

/-- Numeric value of a digit string. -/
def digitsToNat (l : List Char) : Nat :=
  l.foldl (fun n c => n * 10 + (c.toNat - 48)) 0

/-- Decimal digit test. -/
def digitChar (c : Char) : Bool := '0' ≤ c && c ≤ '9'

/-- Canonical-array-index test for JavaScript object keys: a string of
digits without a leading zero whose value is below 2^32 - 1.  Such keys
are enumerated first, in ascending numeric order, by `Object.entries`. -/
def isArrayIndexKey (s : String) : Bool :=
  match s.data with
  | [] => false
  | c :: rest =>
      (c :: rest).all digitChar &&
      (if c == '0' then rest.isEmpty else true) &&
      digitsToNat (c :: rest) < 4294967295

/-- Stable insertion of `x` into `l` for a JavaScript-style comparator:
`x` goes in front of the first element `y` with `cmp x y < 0` (so it lands
after every element that compares equal, preserving stability). -/
def insertCmp (cmp : α → α → Int) (x : α) : List α → List α
  | [] => [x]
  | y :: ys => if cmp x y < 0 then x :: y :: ys else y :: insertCmp cmp x ys

/-- Stable sort with a JavaScript comparator (`Array.prototype.sort` is
required to be stable; any stable sort yields the same list for a
consistent comparator, embedded here as stable insertion sort). -/
def jsSortStable (cmp : α → α → Int) (l : List α) : List α :=
  l.foldl (fun acc x => insertCmp cmp x acc) []

/-- The comparator `(a, b) => b[1] - a[1]` / `(a, b) => b.score - a.score`
used to sort scored pairs by descending score. -/
def scoreDescCmp {A : Type} (a b : A × Nat) : Int :=
  (b.2 : Int) - (a.2 : Int)

/-- Enumeration order of `Object.entries` over the frequency object:
canonical array indices ascending first, then string keys in insertion
order. -/
def jsKeyOrder (entries : List (String × Nat)) : List (String × Nat) :=
  jsSortStable (fun a b => (digitsToNat a.1.data : Int) - digitsToNat b.1.data)
      (entries.filter (fun e => isArrayIndexKey e.1)) ++
    entries.filter (fun e => !isArrayIndexKey e.1)

/-- The fixed stopword set of `extractKeywords`. -/
def stopWords : List String :=
  ["the", "and", "for", "with", "you", "your", "will", "have", "are",
   "our", "this", "that", "from", "they", "been", "more", "when",
   "what", "about", "which", "their", "work", "team", "also"]

/-- Embedding of `ResumeTailor.extractKeywords`: lower-case, tokenize on
`\W+`, count tokens longer than 3 characters, drop stopwords, stable-sort
by descending frequency, keep the first 50 words. -/
def extractKeywords (description : String) : List String :=
  if description == "" then []
  else
    let text := jsToLower description
    let words := jsSplitNonWord text
    let frequency := buildFrequency words []
    let kept := (jsKeyOrder frequency).filter (fun e => !stopWords.contains e.1)
    let sorted := jsSortStable scoreDescCmp kept
    (sorted.take 50).map (fun e => e.1)

/-- Embedding of `ResumeTailor.scoreRelevance`: one point per keyword
occurring in the text. -/
def scoreRelevance (text : String) (keywords : List String) : Nat :=
  keywords.foldl (fun score keyword => if jsIncludes text keyword then score + 1 else score) 0

/-- Embedding of `ResumeTailor.prioritizeSkills`. -/
def prioritizeSkills (skills : List String) (jobDescription : Option JobPosting) : List String :=
  if skills.isEmpty then []
  else
    match jobDescription with
    | none => skills
    | some jd =>
        if jd.description == "" then skills
        else
          let jobText := jsToLower jd.description
          let scored := skills.map (fun skill =>
            (skill, if jsIncludes jobText (jsToLower skill) then (10 : Nat) else 0))
          (jsSortStable scoreDescCmp scored).map (fun s => s.1)

/-- Start date record of an experience entry (only `year` is read). -/
structure StartDate where
  year : Int
deriving DecidableEq

/-- Experience entry as read by `prioritizeExperience`. -/
structure Experience where
  title : String
  description : String
  startDate : Option StartDate := none
deriving DecidableEq

/-- The comparator's `a.startDate?.year || 0` (a missing date — and a
zero year, which `||` also replaces by `0` — count as year 0). -/
def effStartYear (e : Experience) : Int :=
  match e.startDate with
  | none => 0
  | some d => d.year

/-- The comparator passed to `scored.sort` in `prioritizeExperience`. -/
def scoredCmp (a b : Experience × Nat) : Int :=
  let scoreDiff : Int := (b.2 : Int) - (a.2 : Int)
  if 5 < scoreDiff.natAbs then scoreDiff
  else effStartYear b.1 - effStartYear a.1

/-- The scored copies built by `prioritizeExperience` before sorting
(`{...exp, score: scoreRelevance(...)}`). -/
def scoreExperienceEntries (jobKeywords : List String) (experience : List Experience) :
    List (Experience × Nat) :=
  experience.map (fun exp =>
    (exp, scoreRelevance (jsToLower (exp.title ++ " " ++ exp.description)) jobKeywords))

/-- Embedding of `ResumeTailor.prioritizeExperience`.  The method reads
`this.jobKeywords`, the keyword list `tailor` stored beforehand; that
instance state is passed explicitly.  JavaScript returns the entries
without a `score` field on the pass-through branches and with one on the
scored branch; the optional score models that heterogeneity. -/
def prioritizeExperience (jobKeywords : List String) (experience : List Experience)
    (jobDescription : Option JobPosting) : List (Experience × Option Nat) :=
  if experience.isEmpty then []
  else
    match jobDescription with
    | none => experience.map (fun e => (e, none))
    | some jd =>
        if jd.description == "" then experience.map (fun e => (e, none))
        else
          let scored := scoreExperienceEntries jobKeywords experience
          (jsSortStable scoredCmp scored).map (fun s => (s.1, some s.2))

/-- Score a skill receives under the specification's wording for C6: 10
when it occurs case-insensitively as a substring of the job description,
otherwise 0 (this matches the scored branch of the code). -/
def skillScoreSpec (jobDescriptionText skill : String) : Nat :=
  if jsIncludes (jsToLower jobDescriptionText) (jsToLower skill) then 10 else 0

/-- Score projection for the claim predicates over `prioritizeExperience`
output entries (`score` read off the entry, 0 when absent). -/
def expScoreOf (x : Experience × Option Nat) : Nat := x.2.getD 0

/-- Absolute score difference between two output entries. -/
def expScoreGap (x y : Experience × Option Nat) : Nat :=
  ((expScoreOf x : Int) - (expScoreOf y : Int)).natAbs

/-- Boolean pairwise check over a list. -/
def pairwiseB (r : α → α → Bool) : List α → Bool
  | [] => true
  | x :: xs => xs.all (r x) && pairwiseB r xs

/-- The ordering property claim C3 asserts of `prioritizeExperience`
output: for every (in-order) pair, a gap above 5 puts the higher score
first, and a gap of at most 5 puts the later start year first. -/
def experienceClaimOrderedB (l : List (Experience × Option Nat)) : Bool :=
  pairwiseB (fun x y =>
    (if 5 < expScoreGap x y then decide (expScoreOf y < expScoreOf x) else true) &&
    (if expScoreGap x y ≤ 5 then decide (effStartYear y.1 ≤ effStartYear x.1) else true)) l

/-! ## JobExtractor (`job-extractor.js`)

`extractYearsOfExperience` tries three case-insensitive regexes in order
and returns `parseInt` of the first capture of the first one that matches
anywhere in the description.  Each regex is embedded as a backtracking
recognizer over character lists; a set of candidate remainders stands for
the nondeterminism of `\s*`, optional pieces and alternations (whether a
match exists is independent of the order candidates are tried). -/

/-- Case-insensitive literal: remainder after consuming `pat`, if it is a
(case-insensitive) lead of `s`. -/
def ciLit : List Char → List Char → Option (List Char)
  | [], s => some s
  | _ :: _, [] => none
  | c :: cs, d :: ds => if c.toLower == d.toLower then ciLit cs ds else none

/-- Whitespace for the regex class `\s` (the forms occurring here). -/
def wsChar (c : Char) : Bool :=
  c == ' ' || c == '\t' || c == '\n' || c == '\r'

/-- Candidate remainders of `\s*`: drop any run of leading whitespace. -/
def wsSplits : List Char → List (List Char)
  | [] => [[]]
  | c :: s => if wsChar c then wsSplits s ++ [c :: s] else [c :: s]

/-- Alternation of case-insensitive literals, in the given order. -/
def litAlts (lits : List String) (s : List Char) : List (List Char) :=
  lits.flatMap (fun t => (ciLit t.data s).toList)

/-- Optional case-insensitive literal (`(?:lit)?`). -/
def optLit (t : String) (s : List Char) : List (List Char) :=
  (ciLit t.data s).toList ++ [s]

/-- First defined value in a candidate list. -/
def firstSome : List (Option α) → Option α
  | [] => none
  | some a :: _ => some a
  | none :: rest => firstSome rest

/-- Tail of pattern 1 after the years word: `\s*(?:of)?\s*(?:experience|exp)`. -/
def pat1Tail (s : List Char) : List (List Char) :=
  (wsSplits s).flatMap (fun r1 =>
    (optLit "of" r1).flatMap (fun r2 =>
      (wsSplits r2).flatMap (litAlts ["experience", "exp"])))

/-- Pattern 1 at one start position:
`(\d+)\+?\s*(?:years?|yrs?)\s*(?:of)?\s*(?:experience|exp)` with flag `i`;
returns the first capture (the digits) when the whole pattern matches. -/
def pat1At (s : List Char) : Option String :=
  let ds := s.takeWhile digitChar
  if ds.isEmpty then none
  else
    let r0 := s.dropWhile digitChar
    let afterPlus : List (List Char) :=
      match r0 with
      | c :: rest => if c == '+' then [rest, r0] else [r0]
      | [] => [r0]
    let ok := afterPlus.flatMap (fun r =>
      (wsSplits r).flatMap (fun r2 =>
        (litAlts ["years", "year", "yrs", "yr"] r2).flatMap pat1Tail))
    if ok.isEmpty then none else some (String.mk ds)

/-- Pattern 2 at one start position:
`(?:minimum|at least|min)\s*(\d+)\s*(?:years?|yrs?)` with flag `i`. -/
def pat2At (s : List Char) : Option String :=
  firstSome ((litAlts ["minimum", "at least", "min"] s).map (fun r =>
    firstSome ((wsSplits r).map (fun r2 =>
      let ds := r2.takeWhile digitChar
      if ds.isEmpty then none
      else
        let ok := (wsSplits (r2.dropWhile digitChar)).flatMap
          (litAlts ["years", "year", "yrs", "yr"])
        if ok.isEmpty then none else some (String.mk ds)))))

/-- Pattern 3 at one start position:
`(\d+)\s*-\s*(\d+)\s*(?:years?|yrs?)` with flag `i`; returns capture 1. -/
def pat3At (s : List Char) : Option String :=
  let ds := s.takeWhile digitChar
  if ds.isEmpty then none
  else
    let r0 := s.dropWhile digitChar
    let ok := (wsSplits r0).flatMap (fun r1 =>
      match r1 with
      | '-' :: r2 =>
          (wsSplits r2).flatMap (fun r3 =>
            let ds2 := r3.takeWhile digitChar
            if ds2.isEmpty then []
            else
              (wsSplits (r3.dropWhile digitChar)).flatMap
                (litAlts ["years", "year", "yrs", "yr"]))
      | _ => [])
    if ok.isEmpty then none else some (String.mk ds)

/-- Leftmost match: try the pattern at every start position, in order
(`String.prototype.match` without the `g` flag). -/
def scanLeftmost (patAt : List Char → Option String) : List Char → Option String
  | [] => patAt []
  | c :: rest =>
      match patAt (c :: rest) with
      | some r => some r
      | none => scanLeftmost patAt rest

/-- Embedding of `JobExtractor.extractYearsOfExperience`, as a function of
the extracted description (`!this.extractedData?.description` is the empty
or absent description).  The three patterns are tried in order; the first
match's first capture is parsed as a number. -/
def extractYearsOfExperience (description : String) : Option Nat :=
  if description == "" then none
  else
    match scanLeftmost pat1At description.data with
    | some ds => some (digitsToNat ds.data)
    | none =>
        match scanLeftmost pat2At description.data with
        | some ds => some (digitsToNat ds.data)
        | none =>
            match scanLeftmost pat3At description.data with
            | some ds => some (digitsToNat ds.data)
            | none => none

/-! ## FormFiller (`form-filler.js`)

The form filler runs against a live page.  The page is embedded as an
abstract environment `Dom`: locator resolution is a fixed lookup,
`waitForElement` (a wall-clock polling loop in the source, which has no
shallow embedding) is an environment oracle with the same
resolve-or-timeout contract, and any primitive element interaction may
throw an exception chosen by the environment.  A computation is a function
from the environment to an `Except` result paired with the trace of DOM
touches it performed, so "raises no exception" and "never touches the
DOM" are stated directly on results. -/

/-- Abstract live DOM element. -/
structure DomElem where
  elemId : Nat
deriving DecidableEq

/-- One observable DOM interaction. -/
inductive DomOp
  | findOp (selector : String)
  | waitOp (paths : List String) (timeout : Int)
  | elemAct (e : DomElem) (opName : String)
deriving DecidableEq

/-- The environment: what each locator resolves to, what each wait
returns (an element, or `none` on timeout), which element interactions
throw, checkbox state, and the global `window.VALUE_TRANSFORMS` tables. -/
structure Dom where
  findElem : String → Option DomElem
  waitElem : List String → Int → Option DomElem
  actFails : DomElem → String → Option String
  isChecked : DomElem → Bool
  valueTransforms : String → Option (List (String × JSValue))

/-- Form-filler computation: result or thrown exception, plus the trace
of DOM interactions. -/
def FillM (α : Type) : Type :=
  Dom → Except String α × List DomOp

/-- Pure computation: no DOM touch, no exception. -/
def fillMPure (a : α) : FillM α := fun _ => (Except.ok a, [])

/-- Sequential composition: an exception short-circuits; traces append. -/
def fillMBind (m : FillM α) (k : α → FillM β) : FillM β := fun dom =>
  match m dom with
  | (Except.error e, ops) => (Except.error e, ops)
  | (Except.ok a, ops) =>
      match k a dom with
      | (r, ops') => (r, ops ++ ops')

instance : Monad FillM where
  pure := fillMPure
  bind := fillMBind

/-- `XPathUtils.find` / `this.findElement`: resolve a locator. -/
def mFind (selector : String) : FillM (Option DomElem) := fun dom =>
  (Except.ok (dom.findElem selector), [DomOp.findOp selector])

/-- `this.waitForElement`: poll for any of `paths` within `timeout`
milliseconds; `none` models the timeout. -/
def mWait (paths : List String) (timeout : Int) : FillM (Option DomElem) := fun dom =>
  (Except.ok (dom.waitElem paths timeout), [DomOp.waitOp paths timeout])

/-- A primitive element interaction (focus, click, value assignment,
event dispatch); the environment decides whether it throws. -/
def mAct (e : DomElem) (opName : String) : FillM Unit := fun dom =>
  match dom.actFails e opName with
  | some msg => (Except.error msg, [DomOp.elemAct e opName])
  | none => (Except.ok (), [DomOp.elemAct e opName])

/-- Read `element.checked`. -/
def mChecked (e : DomElem) : FillM Bool := fun dom =>
  (Except.ok (dom.isChecked e), [DomOp.elemAct e "readChecked"])

/-- A `try { ... } catch` block: reify the outcome instead of propagating. -/
def mAttempt (m : FillM α) : FillM (Except String α) := fun dom =>
  match m dom with
  | (Except.error e, ops) => (Except.ok (Except.error e), ops)
  | (Except.ok a, ops) => (Except.ok (Except.ok a), ops)

/-- `FormFiller.fillDefault`: focus, clear, assign, dispatch
`input`/`change`, optionally `blur`. -/
def fillDefault (e : DomElem) (_value : JSValue) (triggerBlur : Bool) : FillM Bool := do
  mAct e "focus"
  mAct e "clearValue"
  mAct e "setValue"
  mAct e "dispatchInput"
  mAct e "dispatchChange"
  if triggerBlur then mAct e "dispatchBlur" else pure ()
  pure true

/-- `FormFiller.fillReact`: native value setter plus synthetic
`input`/`change` events. -/
def fillReact (e : DomElem) (_value : JSValue) : FillM Bool := do
  mAct e "setValueNative"
  mAct e "dispatchInput"
  mAct e "dispatchChange"
  pure true

/-- `FormFiller.fillClick`. -/
def fillClick (e : DomElem) : FillM Bool := do
  mAct e "click"
  pure true

/-- `FormFiller.fillCheckboxRadio`: interpret truthiness, click only when
the current checked state differs. -/
def fillCheckboxRadio (e : DomElem) (value : JSValue) : FillM Bool := do
  let shouldCheck :=
    value == JSValue.boolv true || value == JSValue.strv "true" ||
      value == JSValue.strv "1" || value == JSValue.strv "yes"
  let cur ← mChecked e
  if cur != shouldCheck then mAct e "click" else pure ()
  pure true

/-- `FormFiller.fillElement`: dispatch on the method name (unknown
methods fall back to the default strategy). -/
def fillElement (e : DomElem) (value : JSValue) (method : String) : FillM Bool :=
  match method with
  | "react" => fillReact e value
  | "default" => fillDefault e value true
  | "defaultWithoutBlur" => fillDefault e value false
  | "click" => fillClick e
  | "selectCheckboxOrRadio" => fillCheckboxRadio e value
  | _ => fillDefault e value true

/-- `FormFiller.fillSimpleSelector`. -/
def fillSimpleSelector (selector : String) (value : JSValue) (method : String) : FillM Bool := do
  let el ← mFind selector
  match el with
  | none => pure false
  | some e => fillElement e value method

/-- String coercion of a `JSValue` used as an object key. -/
def jsToKeyString : JSValue → String
  | .undef => "undefined"
  | .nullv => "null"
  | .boolv b => if b then "true" else "false"
  | .numv n => toString n
  | .strv s => s

/-- Lookup in an object used as a table (`valueMap[value]`). -/
def lookupTable (entries : List (String × JSValue)) (key : String) : Option JSValue :=
  (entries.find? (fun e => e.1 == key)).map (fun e => e.2)

/-- The `valueMap[value] || value` / `transform?.[value] || value`
pattern: a missing or falsy table entry falls back to the raw value. -/
def tableLookupOr (entries : List (String × JSValue)) (value : JSValue) : JSValue :=
  match lookupTable entries (jsToKeyString value) with
  | some r => if jsFalsy r then value else r
  | none => value

/-- `FormFiller.transformValue` (the named branch reads the global
`window.VALUE_TRANSFORMS`, supplied by the environment). -/
def transformValue (value : JSValue) (vm : ValueMap) : FillM JSValue := fun dom =>
  match vm with
  | .named n =>
      match dom.valueTransforms n with
      | none => (Except.ok value, [])
      | some table => (Except.ok (tableLookupOr table value), [])
  | .table entries => (Except.ok (tableLookupOr entries value), [])

/-- `Array.isArray(config.path) ? config.path : [config.path]`. -/
def pathList : PathSpec → List String
  | .single p => [p]
  | .multi ps => ps

/-- JavaScript string coercion of `config.path` (an array joins with a
comma), as used for `%INPUTPATH%` substitution. -/
def pathToString : PathSpec → String
  | .single p => p
  | .multi ps => String.intercalate "," ps

/-- Truthiness of `config.path` (an array is always truthy). -/
def pathTruthy : PathSpec → Bool
  | .single p => !(p == "")
  | .multi _ => true

/-- The `for (path of paths) { element = findElement(path); if break }`
loop of `fillComplexSelector`. -/
def findFirstElem : List String → FillM (Option DomElem)
  | [] => pure none
  | p :: rest => do
      let el ← mFind p
      match el with
      | some e => pure (some e)
      | none => findFirstElem rest

/-- `FormFiller.executeAction`: dispatch on the step's method, then
dispatch keyboard/mouse events when requested. -/
def executeAction (e : DomElem) (action : FillAction) (value : JSValue)
    (_atsConfig : ATSConfig) : FillM Unit := do
  (match action.method with
   | some "click" => mAct e "click"
   | some "default" => do
       let _ ← fillDefault e value true
       pure ()
   | some "defaultWithoutBlur" => do
       let _ ← fillDefault e value false
       pure ()
   | some "clearValue" => do
       mAct e "clearValue"
       mAct e "dispatchInput"
   | some "blur" => mAct e "dispatchBlur"
   | some "focus" => mAct e "focus"
   | _ => pure ())
  (if action.event == some "keydown" then mAct e "dispatchKeydown" else pure ())
  (if action.event == some "mouseover" then mAct e "dispatchMouseover" else pure ())

/-- Global substring replacement over character lists, embedding
`str.replace(/.../g, repl)`.  The fuel argument (instantiated with the
subject's length, an upper bound on the number of steps because every
step consumes at least one character) keeps the recursion structural. -/
def replaceAllAux (sub repl : List Char) : Nat → List Char → List Char
  | _, [] => []
  | 0, s => s
  | fuel + 1, c :: rest =>
      if startsWithChars sub (c :: rest) && !sub.isEmpty then
        repl ++ replaceAllAux sub repl fuel (List.drop (sub.length - 1) rest)
      else c :: replaceAllAux sub repl fuel rest

/-- Embedding of `s.replace(new RegExp(sub, "g"), repl)` for a literal
`sub`. -/
def jsReplaceAll (s sub repl : String) : String :=
  String.mk (replaceAllAux sub.data repl.data s.data.length s.data)

/-- The step's effective wait locator: `action.path` with `%INPUTPATH%`
replaced by the field's own path when both are truthy. -/
def actionEffPath (cfg : ComplexConfig) (action : FillAction) : Option String :=
  match action.path with
  | none => none
  | some p =>
      if !(p == "") && pathTruthy cfg.path then
        some (jsReplaceAll p "%INPUTPATH%" (pathToString cfg.path))
      else some p

/-- `FormFiller.executeActions`: run the steps in order, skipping
`uploadResume`; a step with a truthy `time` and a truthy path waits for a
new element, rebinding the current element on success; a timeout aborts
with a failed fill unless the step allows failure. -/
def executeActions (current : DomElem) (cfg : ComplexConfig) (actions : List FillAction)
    (value : JSValue) (atsConfig : ATSConfig) : FillM Bool :=
  match actions with
  | [] => pure true
  | action :: rest =>
      if action.method == some "uploadResume" then
        executeActions current cfg rest value atsConfig
      else do
        executeAction current action value atsConfig
        match action.time, actionEffPath cfg action with
        | some t, some p =>
            if !(t == 0) && !(p == "") then do
              let newElem ← mWait [p] t
              match newElem with
              | some e' => executeActions e' cfg rest value atsConfig
              | none =>
                  if action.allowFailure then executeActions current cfg rest value atsConfig
                  else pure false
            else executeActions current cfg rest value atsConfig
        | _, _ => executeActions current cfg rest value atsConfig

/-- The `a || b` idiom on possibly-missing strings (an empty string is
falsy and also falls through). -/
def orFalsyStr (a : Option String) (b : String) : String :=
  match a with
  | some s => if s == "" then b else s
  | none => b

/-- `FormFiller.fillComplexSelector`. -/
def fillComplexSelector (cfg : ComplexConfig) (value : JSValue)
    (atsConfig : ATSConfig) : FillM Bool := do
  let el ← findFirstElem (pathList cfg.path)
  match el with
  | none => pure false
  | some e => do
      let v ← match cfg.values with
              | some (ValueMap.table entries) => transformValue value (ValueMap.table entries)
              | _ => pure value
      match cfg.actions with
      | some actions => executeActions e cfg actions v atsConfig
      | none => fillElement e v (orFalsyStr cfg.method (orFalsyStr atsConfig.defaultMethod "default"))

/-- `FormFiller.tryFillWithSelector` (`fieldName` is only logged). -/
def tryFillWithSelector (_fieldName : String) (sc : SelectorConfig) (value : JSValue)
    (atsConfig : ATSConfig) : FillM Bool :=
  match sc with
  | .simple selector =>
      fillSimpleSelector selector value (atsConfig.defaultMethod.getD "default")
  | .complex cfg => fillComplexSelector cfg value atsConfig

/-- The tailored data map, with the fields `getValueForField` reads. -/
structure TailoredData where
  firstName : JSValue := .undef
  lastName : JSValue := .undef
  fullName : JSValue := .undef
  email : JSValue := .undef
  phone : JSValue := .undef
  phoneStripped : JSValue := .undef
  location : JSValue := .undef
  linkedin : JSValue := .undef
  github : JSValue := .undef
  portfolio : JSValue := .undef
  summary : JSValue := .undef
  city : JSValue := .undef
  state : JSValue := .undef
  country : JSValue := .undef
  postalCode : JSValue := .undef
  address : JSValue := .undef
  authorizedToWork : JSValue := .undef
  requiresSponsorship : JSValue := .undef
  gender : JSValue := .undef
  ethnicity : JSValue := .undef
  veteran : JSValue := .undef
  disability : JSValue := .undef
deriving DecidableEq

/-- `FormFiller.getValueForField`: the literal field map (an unknown
field name reads as `undefined`). -/
def getValueForField (fieldName : String) (data : TailoredData) : JSValue :=
  match fieldName with
  | "first_name" => data.firstName
  | "last_name" => data.lastName
  | "full_name" => data.fullName
  | "email" => data.email
  | "phone" => data.phone
  | "phone_stripped" => data.phoneStripped
  | "location" => data.location
  | "linkedin" => data.linkedin
  | "github" => data.github
  | "portfolio" => data.portfolio
  | "summary" => data.summary
  | "city" => data.city
  | "state" => data.state
  | "country" => data.country
  | "postal_code" => data.postalCode
  | "address" => data.address
  | "authorized_to_work" => data.authorizedToWork
  | "requires_sponsorship" => data.requiresSponsorship
  | "gender" => data.gender
  | "ethnicity" => data.ethnicity
  | "veteran" => data.veteran
  | "disability" => data.disability
  | _ => JSValue.undef

/-- The skip test `!value && value !== 0 && value !== false`. -/
def skipValueCheck (value : JSValue) : Bool :=
  jsFalsy value && !(value == JSValue.numv 0) && !(value == JSValue.boolv false)

/-- `Array.isArray(selectorConfigs) ? selectorConfigs : [selectorConfigs]`. -/
def entryConfigs : SelectorEntry → List SelectorConfig
  | .one c => [c]
  | .many cs => cs

/-- The candidate-loop of `fillField`: each `tryFillWithSelector` runs in
a `try`/`catch`; the first successful fill wins, otherwise skip. -/
def tryConfigList (fieldName : String) (value : JSValue) (atsConfig : ATSConfig) :
    List SelectorConfig → FillM Bool
  | [] => pure false
  | c :: rest => do
      let r ← mAttempt (tryFillWithSelector fieldName c value atsConfig)
      match r with
      | Except.ok true => pure true
      | _ => tryConfigList fieldName value atsConfig rest

/-- Embedding of `FormFiller.fillField`: the `resume` field is always
skipped (handled by the file uploader); a skip-worthy value skips without
touching the DOM; otherwise the candidate configs are tried in order. -/
def fillField (fieldName : String) (entry : SelectorEntry) (data : TailoredData)
    (atsConfig : ATSConfig) : FillM Bool :=
  if fieldName == "resume" then pure false
  else
    let value := getValueForField fieldName data
    if skipValueCheck value then pure false
    else tryConfigList fieldName value atsConfig (entryConfigs entry)

/-- The `{ filledCount, skipCount }` summary. -/
structure FormFillResult where
  filledCount : Nat
  skipCount : Nat
deriving DecidableEq

/-- The loop of `FormFiller.fill` over the `inputSelectors` map. -/
def fillFields (data : TailoredData) (atsConfig : ATSConfig) :
    List (String × SelectorEntry) → FillM FormFillResult
  | [] => pure ⟨0, 0⟩
  | (fieldName, entry) :: rest => do
      let filled ← fillField fieldName entry data atsConfig
      let r ← fillFields data atsConfig rest
      pure (if filled then ⟨r.filledCount + 1, r.skipCount⟩
            else ⟨r.filledCount, r.skipCount + 1⟩)

/-- Embedding of `FormFiller.fill`. -/
def fill (ats : ATS) (data : TailoredData) : FillM FormFillResult :=
  fillFields data ats.config ats.config.inputSelectors

/-- The locator strings one candidate config can resolve before an
element is found. -/
def configPaths : SelectorConfig → List String
  | .simple s => [s]
  | .complex cfg => pathList cfg.path

/-- All locator strings a field's candidate configs can resolve before an
element is found (used to state C5). -/
def candidatePaths (entry : SelectorEntry) : List String :=
  (entryConfigs entry).flatMap configPaths

/-- A computation that returns without throwing, in every environment. -/
def fillMOk {α : Type} (m : FillM α) : Prop :=
  ∀ dom, ∃ a ops, m dom = (Except.ok a, ops)

/-- An environment in which no locator resolves, every wait times out and
no element interaction throws (used by the witnesses). -/
def emptyDom : Dom :=
  ⟨fun _ => none, fun _ _ => none, fun _ _ => none, fun _ => false, fun _ => none⟩

/-- Sample tailored data with a non-falsy email and nothing else. -/
def sampleData : TailoredData :=
  { email := JSValue.strv "a@b.c" }

/-- C1: the claimed equivalence between `matchPattern` and wildcard
semantics fails.  For pattern `a*b` and URL `axb` the wildcard semantics
match but `matchPattern` rejects: the final `.replace(/\./g, "\\.")`
escapes the `.` characters introduced by `*` → `.*`, so a `*` in a pattern
can only ever match a run of literal dot characters.  The registry-style
pattern `*://jobs.lever.co/*` still accepts the Lever URL only because the
test is unanchored and the broken `\.*` can match the empty string. -/
theorem matchPattern_deviates_from_glob :
    specGlobMatches "axb" "a*b" = true ∧
    matchPattern "axb" "example.com" "a*b" = false ∧
    matchPattern "https://jobs.lever.co/figma/abcd-1234" "jobs.lever.co"
      "*://jobs.lever.co/*" = true := by
  refine ⟨by decide, by decide, by decide⟩

/-- C2: `detect` returns exactly the first registry entry (in order) whose
inclusion patterns match the URL and whose exclusion patterns do not; any
returned platform is included and not excluded (so a URL matching both an
inclusion and an exclusion pattern of a platform is never returned as that
platform); and `detect` returns `none` iff no entry satisfies
inclusion-without-exclusion. -/
theorem detect_first_inclusion_without_exclusion (url hostname : String)
    (configs : List (String × ATSConfig)) :
    detect url hostname configs =
      configs.find? (fun nc => matchesUrl url hostname nc.2 && !(isExcluded url nc.2)) ∧
    (∀ nc, detect url hostname configs = some nc →
      matchesUrl url hostname nc.2 = true ∧ isExcluded url nc.2 = false) ∧
    (detect url hostname configs = none ↔
      ∀ nc ∈ configs, matchesUrl url hostname nc.2 = false ∨ isExcluded url nc.2 = true) := by
  have hfind : detect url hostname configs =
      configs.find? (fun nc => matchesUrl url hostname nc.2 && !(isExcluded url nc.2)) := by
    induction configs with
    | nil => rfl
    | cons nc rest ih =>
        obtain ⟨name, config⟩ := nc
        by_cases hm : matchesUrl url hostname config = true
        · by_cases he : isExcluded url config = true
          · simp [detect, List.find?, hm, he, ih]
          · simp only [Bool.not_eq_true] at he
            simp [detect, List.find?, hm, he]
        · simp only [Bool.not_eq_true] at hm
          simp [detect, List.find?, hm, ih]
  refine ⟨hfind, ?_, ?_⟩
  · intro nc hnc
    rw [hfind] at hnc
    have := List.find?_some hnc
    simp only [Bool.and_eq_true, Bool.not_eq_true'] at this
    exact this
  · rw [hfind]
    constructor
    · intro hnone nc hmem
      have hnp := List.find?_eq_none.mp hnone nc hmem
      cases hm : matchesUrl url hostname nc.2
      · exact Or.inl rfl
      · cases he : isExcluded url nc.2
        · exact absurd (by simp [hm, he]) hnp
        · exact Or.inr rfl
    · intro h
      apply List.find?_eq_none.mpr
      intro nc hmem
      rcases h nc hmem with hm | he
      · simp [hm]
      · simp [he]

/-- Witness for C2: on the Lever-style registry from the configuration
data, the detector yields the Lever entry, and the theorem's consequences
evaluate on it. -/
theorem detect_first_inclusion_without_exclusion_witness :
    matchesUrl "https://jobs.lever.co/figma/abcd-1234" "jobs.lever.co"
      (ATSConfig.mk (some ["*://jobs.lever.co/*"]) none none []) = true ∧
    isExcluded "https://jobs.lever.co/figma/abcd-1234"
      (ATSConfig.mk (some ["*://jobs.lever.co/*"]) none none []) = false := by
  exact (detect_first_inclusion_without_exclusion
    "https://jobs.lever.co/figma/abcd-1234" "jobs.lever.co"
    [("Lever", ATSConfig.mk (some ["*://jobs.lever.co/*"]) none none [])]).2.1
    ("Lever", ATSConfig.mk (some ["*://jobs.lever.co/*"]) none none [])
    (by decide)

/-- C4 counterexample: on the exact description
`"We need 5+ years of Go and Kubernetes experience"`,
`extractYearsOfExperience` does not return 5: pattern 1 requires
`experience`/`exp` to follow the years word with at most an optional
`of`, and here `of Go and Kubernetes` intervenes; patterns 2 and 3 need
`minimum`/`at least`/`min` or a digit range, which are absent. -/
theorem extractYears_go_kubernetes_not_five :
    extractYearsOfExperience "We need 5+ years of Go and Kubernetes experience" ≠ some 5 := by
  decide

/-- C4 amended: on that description the function returns `none`; with the
filler words removed (`"We need 5+ years of experience"`) it returns 5. -/
theorem extractYears_go_kubernetes_none :
    extractYearsOfExperience "We need 5+ years of Go and Kubernetes experience" = none ∧
    extractYearsOfExperience "We need 5+ years of experience" = some 5 := by
  constructor
  · decide
  · decide

/-! ### Helper lemmas on the stable sort and the frequency table -/

theorem insertCmp_perm (cmp : α → α → Int) (x : α) (l : List α) :
    (insertCmp cmp x l).Perm (x :: l) := by
  induction l with
  | nil => exact List.Perm.refl _
  | cons y ys ih =>
      by_cases h : cmp x y < 0
      · simp [insertCmp, h]
      · simp only [insertCmp, if_neg h]
        exact (ih.cons y).trans (List.Perm.swap x y ys)

theorem foldl_insertCmp_perm (cmp : α → α → Int) (l acc : List α) :
    (List.foldl (fun acc x => insertCmp cmp x acc) acc l).Perm (acc ++ l) := by
  induction l generalizing acc with
  | nil => simp
  | cons x xs ih =>
      refine (ih (insertCmp cmp x acc)).trans ?_
      refine (((insertCmp_perm cmp x acc).append_right xs).trans ?_)
      exact List.perm_middle.symm

theorem jsSortStable_perm (cmp : α → α → Int) (l : List α) :
    (jsSortStable cmp l).Perm l := by
  simpa [jsSortStable] using foldl_insertCmp_perm cmp l []

theorem mem_bumpFreq {P : String → Prop} (w : String) (acc : List (String × Nat))
    (hacc : ∀ e ∈ acc, P e.1) (hw : P w) : ∀ e ∈ bumpFreq w acc, P e.1 := by
  induction acc with
  | nil =>
      intro e he
      simp only [bumpFreq, List.mem_singleton] at he
      subst he
      exact hw
  | cons a rest ih =>
      intro e he
      obtain ⟨w', n⟩ := a
      by_cases h : (w' == w) = true
      · simp only [bumpFreq, h, if_true] at he
        rcases List.mem_cons.mp he with h1 | h1
        · subst h1
          exact hacc (w', n) (List.mem_cons_self _ _)
        · exact hacc _ (List.mem_cons_of_mem _ h1)
      · simp only [bumpFreq, h, if_false] at he
        rcases List.mem_cons.mp he with h1 | h1
        · subst h1
          exact hacc (w', n) (List.mem_cons_self _ _)
        · exact ih (fun e he => hacc e (List.mem_cons_of_mem _ he)) e h1

theorem mem_buildFrequency_length (ws : List String) (acc : List (String × Nat))
    (hacc : ∀ e ∈ acc, 3 < e.1.length) :
    ∀ e ∈ buildFrequency ws acc, 3 < e.1.length := by
  induction ws generalizing acc with
  | nil => simpa [buildFrequency] using hacc
  | cons w ws ih =>
      by_cases h : w.length > 3
      · simp only [buildFrequency, if_pos h]
        exact ih _ (mem_bumpFreq (P := fun s => 3 < s.length) w acc hacc h)
      · simp only [buildFrequency, if_neg h]
        exact ih _ hacc

theorem mem_jsKeyOrder (entries : List (String × Nat)) :
    ∀ e ∈ jsKeyOrder entries, e ∈ entries := by
  intro e he
  rcases List.mem_append.mp he with h | h
  · exact (List.mem_filter.mp ((jsSortStable_perm _ _).mem_iff.mp h)).1
  · exact (List.mem_filter.mp h).1

/-- C7: `extractKeywords` is deterministic; every returned keyword has
length above 3 and is outside the stopword set; the result has at most 50
elements. -/
theorem extractKeywords_props (text : String) :
    extractKeywords text = extractKeywords text ∧
    (∀ w ∈ extractKeywords text, 3 < w.length ∧ stopWords.contains w = false) ∧
    (extractKeywords text).length ≤ 50 := by
  refine ⟨rfl, ?_, ?_⟩
  · intro w hw
    by_cases hd : (text == "") = true
    · simp [extractKeywords, hd] at hw
    · simp only [extractKeywords, hd, Bool.false_eq_true, if_false] at hw
      obtain ⟨e, he, rfl⟩ := List.mem_map.mp hw
      have he' := List.take_subset 50 _ he
      have hkept := (jsSortStable_perm _ _).mem_iff.mp he'
      have hfil := List.mem_filter.mp hkept
      refine ⟨?_, ?_⟩
      · exact mem_buildFrequency_length _ [] (by simp) e
          (mem_jsKeyOrder _ e hfil.1)
      · simpa using hfil.2
  · by_cases hd : (text == "") = true
    · simp [extractKeywords, hd]
    · simp only [extractKeywords, hd, Bool.false_eq_true, if_false, List.length_map,
        List.length_take]
      omega

/-- Witness for C7: the keyword `kubernetes` extracted from a concrete
description satisfies the guarantees. -/
theorem extractKeywords_props_witness :
    3 < ("kubernetes" : String).length ∧ stopWords.contains "kubernetes" = false :=
  (extractKeywords_props "kubernetes kubernetes experience golang").2.1
    "kubernetes" (by decide)

/-! ### Stable sort of 10/0-scored pairs -/

theorem insertCmp_scoreDesc_ten {A : Type} (x : A × Nat) (hx : x.2 = 10)
    (tens zeros : List (A × Nat)) (htens : ∀ e ∈ tens, e.2 = 10)
    (hzeros : ∀ e ∈ zeros, e.2 = 0) :
    insertCmp scoreDescCmp x (tens ++ zeros) = tens ++ x :: zeros := by
  induction tens with
  | nil =>
      cases zeros with
      | nil => rfl
      | cons z zs =>
          have hz : z.2 = 0 := hzeros z (List.mem_cons_self _ _)
          have hcond : scoreDescCmp x z < 0 := by
            simp only [scoreDescCmp, hx, hz]
            omega
          simp [insertCmp, hcond]
  | cons t ts ih =>
      have ht : t.2 = 10 := htens t (List.mem_cons_self _ _)
      have hcond : ¬(scoreDescCmp x t < 0) := by
        simp only [scoreDescCmp, hx, ht]
        omega
      simp only [List.cons_append, insertCmp, if_neg hcond]
      show t :: insertCmp scoreDescCmp x (ts ++ zeros) = t :: (ts ++ x :: zeros)
      rw [ih (fun e he => htens e (List.mem_cons_of_mem _ he))]

theorem insertCmp_scoreDesc_zero {A : Type} (x : A × Nat) (hx : x.2 = 0)
    (l : List (A × Nat)) :
    insertCmp scoreDescCmp x l = l ++ [x] := by
  induction l with
  | nil => rfl
  | cons y ys ih =>
      have hcond : ¬(scoreDescCmp x y < 0) := by
        simp only [scoreDescCmp, hx]
        omega
      simp [insertCmp, hcond, ih]

theorem foldl_insertCmp_ten_zero {A : Type} (l : List (A × Nat))
    (hl : ∀ e ∈ l, e.2 = 10 ∨ e.2 = 0) :
    ∀ accT accZ : List (A × Nat), (∀ e ∈ accT, e.2 = 10) → (∀ e ∈ accZ, e.2 = 0) →
      List.foldl (fun acc x => insertCmp scoreDescCmp x acc) (accT ++ accZ) l =
        (accT ++ l.filter (fun e => e.2 == 10)) ++
          (accZ ++ l.filter (fun e => !(e.2 == 10))) := by
  induction l with
  | nil => simp
  | cons x xs ih =>
      intro accT accZ hT hZ
      have hxs : ∀ e ∈ xs, e.2 = 10 ∨ e.2 = 0 :=
        fun e he => hl e (List.mem_cons_of_mem _ he)
      rcases hl x (List.mem_cons_self _ _) with h10 | h0
      · have step : insertCmp scoreDescCmp x (accT ++ accZ) = (accT ++ [x]) ++ accZ := by
          rw [insertCmp_scoreDesc_ten x h10 accT accZ hT hZ]
          simp
        have hT' : ∀ e ∈ accT ++ [x], e.2 = 10 := by
          intro e he
          rcases List.mem_append.mp he with h | h
          · exact hT e h
          · simp only [List.mem_singleton] at h
            subst h
            exact h10
        calc List.foldl (fun acc x => insertCmp scoreDescCmp x acc) (accT ++ accZ) (x :: xs)
            = List.foldl (fun acc x => insertCmp scoreDescCmp x acc) ((accT ++ [x]) ++ accZ) xs := by
              simp [step]
          _ = ((accT ++ [x]) ++ xs.filter (fun e => e.2 == 10)) ++
                (accZ ++ xs.filter (fun e => !(e.2 == 10))) := ih hxs _ _ hT' hZ
          _ = (accT ++ (x :: xs).filter (fun e => e.2 == 10)) ++
                (accZ ++ (x :: xs).filter (fun e => !(e.2 == 10))) := by
              simp [List.filter_cons, h10]
      · have step : insertCmp scoreDescCmp x (accT ++ accZ) = accT ++ (accZ ++ [x]) := by
          rw [insertCmp_scoreDesc_zero x h0]
          simp
        have hZ' : ∀ e ∈ accZ ++ [x], e.2 = 0 := by
          intro e he
          rcases List.mem_append.mp he with h | h
          · exact hZ e h
          · simp only [List.mem_singleton] at h
            subst h
            exact h0
        calc List.foldl (fun acc x => insertCmp scoreDescCmp x acc) (accT ++ accZ) (x :: xs)
            = List.foldl (fun acc x => insertCmp scoreDescCmp x acc) (accT ++ (accZ ++ [x])) xs := by
              simp [step]
          _ = (accT ++ xs.filter (fun e => e.2 == 10)) ++
                ((accZ ++ [x]) ++ xs.filter (fun e => !(e.2 == 10))) := ih hxs _ _ hT hZ'
          _ = (accT ++ (x :: xs).filter (fun e => e.2 == 10)) ++
                (accZ ++ (x :: xs).filter (fun e => !(e.2 == 10))) := by
              simp [List.filter_cons, h0]

theorem jsSortStable_ten_zero {A : Type} (l : List (A × Nat))
    (hl : ∀ e ∈ l, e.2 = 10 ∨ e.2 = 0) :
    jsSortStable scoreDescCmp l =
      l.filter (fun e => e.2 == 10) ++ l.filter (fun e => !(e.2 == 10)) := by
  simpa [jsSortStable] using foldl_insertCmp_ten_zero l hl [] [] (by simp) (by simp)

theorem filter_map_pair {A B : Type} (f : A → B) (p : B → Bool) (l : List A) :
    (l.map f).filter p = (l.filter (fun s => p (f s))).map f := by
  induction l with
  | nil => rfl
  | cons x xs ih =>
      by_cases h : p (f x) = true <;> simp [List.filter_cons, h, ih]

theorem map_comp_fst_pair {A B : Type} (g : A → B) (l : List A) :
    List.map ((fun s : A × B => s.1) ∘ fun a => (a, g a)) l = l := by
  induction l with
  | nil => rfl
  | cons x xs ih =>
      show x :: List.map ((fun s : A × B => s.1) ∘ fun a => (a, g a)) xs = x :: xs
      rw [ih]

/-- C6 counterexample: with the empty job description and the skill list
`["a", ""]` the code returns the list unchanged, although under the
claim's scoring the empty skill scores 10 (the empty string is a
substring of the empty description) and `"a"` scores 0, so the output is
not sorted by descending score. -/
theorem prioritizeSkills_claim_fails_on_empty_description :
    prioritizeSkills ["a", ""] (some ⟨""⟩) = ["a", ""] ∧
    skillScoreSpec "" "a" = 0 ∧ skillScoreSpec "" "" = 10 ∧
    pairwiseB (fun x y => decide (skillScoreSpec "" y ≤ skillScoreSpec "" x))
      (prioritizeSkills ["a", ""] (some ⟨""⟩)) = false := by
  exact ⟨rfl, rfl, rfl, rfl⟩

/-- C6 amended: `prioritizeSkills` always returns a permutation of its
input; when the job description is non-empty, the output is the skills
scoring 10 (case-insensitive substring of the description) in original
order followed by the skills scoring 0 in original order — i.e. the
stable descending sort by score the claim describes.  (When the
description is empty or absent, the input is returned unchanged.) -/
theorem prioritizeSkills_perm_and_stable_sort (skills : List String)
    (jd : Option JobPosting) :
    (prioritizeSkills skills jd).Perm skills ∧
    (∀ d, jd = some d → d.description ≠ "" →
      prioritizeSkills skills jd =
        skills.filter (fun s => jsIncludes (jsToLower d.description) (jsToLower s)) ++
          skills.filter (fun s => !jsIncludes (jsToLower d.description) (jsToLower s))) := by
  constructor
  · by_cases hsk : skills.isEmpty = true
    · have : skills = [] := List.isEmpty_iff.mp hsk
      subst this
      simp [prioritizeSkills]
    · cases jd with
      | none => simp [prioritizeSkills, hsk]
      | some d =>
          by_cases hd : (d.description == "") = true
          · simp [prioritizeSkills, hsk, hd]
          · simp only [prioritizeSkills, hsk, Bool.false_eq_true, if_false, hd]
            refine ((jsSortStable_perm _ _).map (fun s : String × Nat => s.1)).trans ?_
            have hmap : List.map (fun s : String × Nat => s.1)
                (skills.map (fun skill =>
                  (skill, if jsIncludes (jsToLower d.description) (jsToLower skill)
                          then (10 : Nat) else 0))) = skills := by
              rw [List.map_map, map_comp_fst_pair]
            rw [hmap]
  · intro d hjd hne
    subst hjd
    by_cases hsk : skills.isEmpty = true
    · have : skills = [] := List.isEmpty_iff.mp hsk
      subst this
      simp [prioritizeSkills]
    · have hd : (d.description == "") = false := by
        simpa using hne
      simp only [prioritizeSkills, hsk, Bool.false_eq_true, if_false, hd]
      rw [jsSortStable_ten_zero]
      · have e1 : skills.filter (fun s =>
              ((if jsIncludes (jsToLower d.description) (jsToLower s) then (10 : Nat) else 0) == 10)) =
            skills.filter (fun s => jsIncludes (jsToLower d.description) (jsToLower s)) := by
          apply List.filter_congr
          intro s _
          by_cases h : jsIncludes (jsToLower d.description) (jsToLower s) = true <;> simp [h]
        have e2 : skills.filter (fun s =>
              !((if jsIncludes (jsToLower d.description) (jsToLower s) then (10 : Nat) else 0) == 10)) =
            skills.filter (fun s => !jsIncludes (jsToLower d.description) (jsToLower s)) := by
          apply List.filter_congr
          intro s _
          by_cases h : jsIncludes (jsToLower d.description) (jsToLower s) = true <;> simp [h]
        rw [List.map_append, filter_map_pair, filter_map_pair, e1, e2,
          List.map_map, List.map_map, map_comp_fst_pair, map_comp_fst_pair]
      · intro e he
        obtain ⟨s, _, rfl⟩ := List.mem_map.mp he
        by_cases h : jsIncludes (jsToLower d.description) (jsToLower s) = true <;> simp [h]

/-- Witness for C6 amended: concrete skill lists against the description
`"go dev"`. -/
theorem prioritizeSkills_perm_and_stable_sort_witness :
    (prioritizeSkills ["go", "cobol"] (some ⟨"go dev"⟩)).Perm ["go", "cobol"] ∧
    prioritizeSkills ["cobol", "go"] (some ⟨"go dev"⟩) =
      ["cobol", "go"].filter (fun s => jsIncludes (jsToLower "go dev") (jsToLower s)) ++
        ["cobol", "go"].filter (fun s => !jsIncludes (jsToLower "go dev") (jsToLower s)) :=
  ⟨(prioritizeSkills_perm_and_stable_sort ["go", "cobol"] (some ⟨"go dev"⟩)).1,
   (prioritizeSkills_perm_and_stable_sort ["cobol", "go"] (some ⟨"go dev"⟩)).2
     ⟨"go dev"⟩ rfl (by decide)⟩

/-! ### Sortedness of the stable sort for a consistent comparator -/

theorem mem_insertCmp (cmp : α → α → Int) (x : α) (l : List α) (y : α) :
    y ∈ insertCmp cmp x l ↔ y = x ∨ y ∈ l := by
  rw [(insertCmp_perm cmp x l).mem_iff, List.mem_cons]

theorem insertCmp_pairwise (cmp : α → α → Int) (S : List α)
    (hneg : ∀ a b : α, cmp b a = -cmp a b)
    (htrans : ∀ a ∈ S, ∀ b ∈ S, ∀ c ∈ S, cmp a b ≤ 0 → cmp b c ≤ 0 → cmp a c ≤ 0)
    (x : α) (hx : x ∈ S) (l : List α) (hl : ∀ e ∈ l, e ∈ S)
    (hp : l.Pairwise (fun a b => cmp a b ≤ 0)) :
    (insertCmp cmp x l).Pairwise (fun a b => cmp a b ≤ 0) := by
  induction l with
  | nil => simp [insertCmp]
  | cons y ys ih =>
      rcases List.pairwise_cons.mp hp with ⟨hy, hys⟩
      by_cases h : cmp x y < 0
      · simp only [insertCmp, if_pos h]
        refine List.pairwise_cons.mpr ⟨?_, hp⟩
        intro w hw
        rcases List.mem_cons.mp hw with rfl | hw'
        · exact le_of_lt h
        · exact htrans x hx y (hl y (List.mem_cons_self _ _)) w
            (hl w (List.mem_cons_of_mem _ hw')) (le_of_lt h) (hy w hw')
      · simp only [insertCmp, if_neg h]
        refine List.pairwise_cons.mpr
          ⟨?_, ih (fun e he => hl e (List.mem_cons_of_mem _ he)) hys⟩
        intro w hw
        rcases (mem_insertCmp cmp x ys w).mp hw with hw0 | hw'
        · rw [hw0]
          have h1 : 0 ≤ cmp x y := le_of_not_lt h
          have h2 : cmp y x = -cmp x y := hneg x y
          omega
        · exact hy w hw'

theorem foldl_insertCmp_pairwise (cmp : α → α → Int) (S : List α)
    (hneg : ∀ a b : α, cmp b a = -cmp a b)
    (htrans : ∀ a ∈ S, ∀ b ∈ S, ∀ c ∈ S, cmp a b ≤ 0 → cmp b c ≤ 0 → cmp a c ≤ 0) :
    ∀ (l acc : List α), (∀ e ∈ l, e ∈ S) → (∀ e ∈ acc, e ∈ S) →
      acc.Pairwise (fun a b => cmp a b ≤ 0) →
      (List.foldl (fun acc x => insertCmp cmp x acc) acc l).Pairwise
        (fun a b => cmp a b ≤ 0)
  | [], _, _, _, hp => by simpa using hp
  | x :: xs, acc, hl, hacc, hp => by
      have hx : x ∈ S := hl x (List.mem_cons_self _ _)
      have hacc' : ∀ e ∈ insertCmp cmp x acc, e ∈ S := by
        intro e he
        rcases (mem_insertCmp cmp x acc e).mp he with rfl | h
        · exact hx
        · exact hacc e h
      exact foldl_insertCmp_pairwise cmp S hneg htrans xs (insertCmp cmp x acc)
        (fun e he => hl e (List.mem_cons_of_mem _ he)) hacc'
        (insertCmp_pairwise cmp S hneg htrans x hx acc hacc hp)

theorem scoredCmp_antisymm (a b : Experience × Nat) : scoredCmp b a = -scoredCmp a b := by
  simp only [scoredCmp]
  by_cases h : 5 < ((b.2 : Int) - (a.2 : Int)).natAbs
  · have h' : 5 < ((a.2 : Int) - (b.2 : Int)).natAbs := by omega
    rw [if_pos h', if_pos h]
    omega
  · have h' : ¬ 5 < ((a.2 : Int) - (b.2 : Int)).natAbs := by omega
    rw [if_neg h', if_neg h]
    omega

theorem pairwiseB_eq_true_iff (r : α → α → Bool) (l : List α) :
    pairwiseB r l = true ↔ l.Pairwise (fun a b => r a b = true) := by
  induction l with
  | nil => simp [pairwiseB]
  | cons x xs ih =>
      simp [pairwiseB, List.pairwise_cons, ih, List.all_eq_true, and_comm]

theorem scoredCmp_le_claimPair (x y : Experience × Nat) (h : scoredCmp x y ≤ 0) :
    ((if 5 < expScoreGap (x.1, some x.2) (y.1, some y.2) then
        decide (expScoreOf (y.1, some y.2) < expScoreOf (x.1, some x.2)) else true) &&
      (if expScoreGap (x.1, some x.2) (y.1, some y.2) ≤ 5 then
        decide (effStartYear (y.1, some y.2).1 ≤ effStartYear (x.1, some x.2).1)
        else true)) = true := by
  have hgap : expScoreGap (x.1, some x.2) (y.1, some y.2)
      = ((x.2 : Int) - (y.2 : Int)).natAbs := rfl
  have hox : expScoreOf (x.1, some x.2) = x.2 := rfl
  have hoy : expScoreOf (y.1, some y.2) = y.2 := rfl
  rw [hgap, hox, hoy]
  simp only [scoredCmp] at h
  by_cases hg : 5 < ((y.2 : Int) - (x.2 : Int)).natAbs
  · rw [if_pos hg] at h
    have hg' : 5 < ((x.2 : Int) - (y.2 : Int)).natAbs := by omega
    rw [if_pos hg', if_neg (by omega)]
    simp only [Bool.and_true]
    exact decide_eq_true (by omega)
  · rw [if_neg hg] at h
    have hg' : ¬ 5 < ((x.2 : Int) - (y.2 : Int)).natAbs := by omega
    rw [if_neg hg', if_pos (by omega)]
    simp only [Bool.true_and]
    exact decide_eq_true (by omega)

/-- C3 counterexample: the comparator is not transitive, so the claimed
pairwise ordering is unsatisfiable on score patterns such as 0/4/8 with
years 2020/2000/1990.  With the description below the three entries score
0, 4 and 8; the sort puts the 8-scorer first (gap 8 > 5), but it then
precedes the 4-scorer with gap 4 ≤ 5 and a strictly earlier start year —
violating the claim's tie-break requirement. -/
theorem prioritizeExperience_claim_fails :
    scoreRelevance (jsToLower ("nothing" ++ " " ++ "here"))
      (extractKeywords "alpha0 alpha1 alpha2 alpha3 alpha4 alpha5 alpha6 alpha7") = 0 ∧
    scoreRelevance (jsToLower ("alpha0 alpha1 alpha2 alpha3" ++ " " ++ ""))
      (extractKeywords "alpha0 alpha1 alpha2 alpha3 alpha4 alpha5 alpha6 alpha7") = 4 ∧
    scoreRelevance (jsToLower
        ("alpha0 alpha1 alpha2 alpha3 alpha4 alpha5 alpha6 alpha7" ++ " " ++ ""))
      (extractKeywords "alpha0 alpha1 alpha2 alpha3 alpha4 alpha5 alpha6 alpha7") = 8 ∧
    experienceClaimOrderedB
      (prioritizeExperience
        (extractKeywords "alpha0 alpha1 alpha2 alpha3 alpha4 alpha5 alpha6 alpha7")
        [⟨"nothing", "here", some ⟨2020⟩⟩,
         ⟨"alpha0 alpha1 alpha2 alpha3", "", some ⟨2000⟩⟩,
         ⟨"alpha0 alpha1 alpha2 alpha3 alpha4 alpha5 alpha6 alpha7", "", some ⟨1990⟩⟩]
        (some ⟨"alpha0 alpha1 alpha2 alpha3 alpha4 alpha5 alpha6 alpha7"⟩)) = false := by
  refine ⟨by decide, by decide, by decide, by decide⟩

/-- C3 amended: the claimed pairwise order holds whenever the comparator
(score difference when above the ±5 threshold, else start year) is
transitive on the scored entries; the original unconditional claim is
unsatisfiable because the comparator is not transitive in general. -/
theorem prioritizeExperience_ordered_of_consistent (jobKeywords : List String)
    (experience : List Experience) (d : JobPosting)
    (hne : experience ≠ []) (hdesc : d.description ≠ "")
    (htrans : ∀ x ∈ scoreExperienceEntries jobKeywords experience,
      ∀ y ∈ scoreExperienceEntries jobKeywords experience,
      ∀ z ∈ scoreExperienceEntries jobKeywords experience,
      scoredCmp x y ≤ 0 → scoredCmp y z ≤ 0 → scoredCmp x z ≤ 0) :
    experienceClaimOrderedB
      (prioritizeExperience jobKeywords experience (some d)) = true := by
  have hsk : experience.isEmpty = false := by
    cases experience with
    | nil => exact absurd rfl hne
    | cons _ _ => rfl
  have hd : (d.description == "") = false := by simpa using hdesc
  simp only [prioritizeExperience, hsk, Bool.false_eq_true, if_false, hd]
  have hsorted : (jsSortStable scoredCmp
      (scoreExperienceEntries jobKeywords experience)).Pairwise
      (fun a b => scoredCmp a b ≤ 0) := by
    have := foldl_insertCmp_pairwise scoredCmp
      (scoreExperienceEntries jobKeywords experience) scoredCmp_antisymm htrans
      (scoreExperienceEntries jobKeywords experience) [] (fun _ he => he)
      (by simp) (by simp)
    simpa [jsSortStable] using this
  simp only [experienceClaimOrderedB]
  rw [pairwiseB_eq_true_iff, List.pairwise_map]
  exact hsorted.imp (fun {a b} h => scoredCmp_le_claimPair a b h)

/-- Witness for C3 amended: two equal-scoring entries (the comparator is
then the start-year order, which is transitive), sorted most recent
first. -/
theorem prioritizeExperience_ordered_of_consistent_witness :
    experienceClaimOrderedB
      (prioritizeExperience []
        [⟨"dev", "x", some ⟨2000⟩⟩, ⟨"dev", "y", some ⟨2020⟩⟩]
        (some ⟨"desc"⟩)) = true :=
  prioritizeExperience_ordered_of_consistent []
    [⟨"dev", "x", some ⟨2000⟩⟩, ⟨"dev", "y", some ⟨2020⟩⟩] ⟨"desc"⟩
    (by decide) (by decide) (by decide)

/-! ### Evaluation lemmas for the form-filler monad -/

theorem fillMBind_ok_apply {α β : Type} {m : FillM α} {k : α → FillM β} {dom : Dom}
    {a : α} {ops : List DomOp} (h : m dom = (Except.ok a, ops)) :
    (m >>= k) dom = ((k a dom).1, ops ++ (k a dom).2) := by
  show fillMBind m k dom = ((k a dom).1, ops ++ (k a dom).2)
  unfold fillMBind
  rw [h]

theorem fillMOk_pure {α : Type} (a : α) : fillMOk (pure a : FillM α) :=
  fun _ => ⟨a, [], rfl⟩

theorem fillMOk_bind {α β : Type} {m : FillM α} {k : α → FillM β} (hm : fillMOk m)
    (hk : ∀ a, fillMOk (k a)) : fillMOk (m >>= k) := by
  intro dom
  obtain ⟨a, ops, hma⟩ := hm dom
  obtain ⟨b, ops', hkb⟩ := hk a dom
  exact ⟨b, ops ++ ops', by rw [fillMBind_ok_apply hma, hkb]⟩

theorem fillMOk_mAttempt {α : Type} (m : FillM α) : fillMOk (mAttempt m) := by
  intro dom
  rcases h : m dom with ⟨r, ops⟩
  cases r with
  | error e => exact ⟨Except.error e, ops, by simp [mAttempt, h]⟩
  | ok a => exact ⟨Except.ok a, ops, by simp [mAttempt, h]⟩

theorem fillMOk_tryConfigList (fieldName : String) (value : JSValue)
    (atsConfig : ATSConfig) (cs : List SelectorConfig) :
    fillMOk (tryConfigList fieldName value atsConfig cs) := by
  induction cs with
  | nil => exact fillMOk_pure false
  | cons c rest ih =>
      simp only [tryConfigList]
      refine fillMOk_bind (fillMOk_mAttempt _) ?_
      intro r
      match r with
      | Except.error e => exact ih
      | Except.ok true => exact fillMOk_pure true
      | Except.ok false => exact ih

theorem fillMOk_fillField (fieldName : String) (entry : SelectorEntry)
    (data : TailoredData) (atsConfig : ATSConfig) :
    fillMOk (fillField fieldName entry data atsConfig) := by
  by_cases h : (fieldName == "resume") = true
  · simp only [fillField, if_pos h]
    exact fillMOk_pure false
  · simp only [fillField, if_neg h]
    by_cases h2 : skipValueCheck (getValueForField fieldName data) = true
    · rw [if_pos h2]
      exact fillMOk_pure false
    · rw [if_neg h2]
      exact fillMOk_tryConfigList _ _ _ _

theorem fillFields_eval (data : TailoredData) (atsConfig : ATSConfig)
    (entries : List (String × SelectorEntry)) (dom : Dom) :
    ∃ r ops, fillFields data atsConfig entries dom = (Except.ok r, ops) ∧
      r.filledCount + r.skipCount = entries.length := by
  induction entries with
  | nil => exact ⟨⟨0, 0⟩, [], rfl, rfl⟩
  | cons e rest ih =>
      obtain ⟨fieldName, entry⟩ := e
      obtain ⟨b, ops1, hb⟩ := fillMOk_fillField fieldName entry data atsConfig dom
      obtain ⟨r, ops2, hr, hcount⟩ := ih
      have heval : fillFields data atsConfig ((fieldName, entry) :: rest) dom =
          (Except.ok (if b then FormFillResult.mk (r.filledCount + 1) r.skipCount
            else FormFillResult.mk r.filledCount (r.skipCount + 1)),
           ops1 ++ (ops2 ++ [])) := by
        simp only [fillFields, fillMBind_ok_apply hb, fillMBind_ok_apply hr]
        rfl
      refine ⟨_, _, heval, ?_⟩
      cases b
      · simpa using by omega
      · simpa using by omega

/-- C9: `fill` never throws, and its `filledCount` and `skipCount` always
partition the configured fields: their sum equals the number of entries
in the platform's `inputSelectors`, whatever the DOM does and whatever
errors individual field fills raise. -/
theorem fill_counts_partition (ats : ATS) (data : TailoredData) (dom : Dom) :
    ∃ r ops, fill ats data dom = (Except.ok r, ops) ∧
      r.filledCount + r.skipCount = ats.config.inputSelectors.length :=
  fillFields_eval data ats.config ats.config.inputSelectors dom

theorem findFirstElem_all_none (paths : List String) (dom : Dom)
    (h : ∀ p ∈ paths, dom.findElem p = none) :
    findFirstElem paths dom = (Except.ok none, paths.map DomOp.findOp) := by
  induction paths with
  | nil => rfl
  | cons p rest ih =>
      have hm : mFind p dom = (Except.ok (none : Option DomElem), [DomOp.findOp p]) := by
        simp [mFind, h p (List.mem_cons_self _ _)]
      simp only [findFirstElem, fillMBind_ok_apply hm,
        ih (fun q hq => h q (List.mem_cons_of_mem _ hq))]
      simp [Pure.pure, fillMPure]

theorem tryFillWithSelector_absent (fieldName : String) (c : SelectorConfig)
    (value : JSValue) (atsConfig : ATSConfig) (dom : Dom)
    (h : ∀ p ∈ configPaths c, dom.findElem p = none) :
    ∃ ops, tryFillWithSelector fieldName c value atsConfig dom = (Except.ok false, ops) := by
  cases c with
  | simple s =>
      have hm : mFind s dom = (Except.ok (none : Option DomElem), [DomOp.findOp s]) := by
        simp [mFind, h s (by simp [configPaths])]
      refine ⟨[DomOp.findOp s], ?_⟩
      simp only [tryFillWithSelector, fillSimpleSelector, fillMBind_ok_apply hm]
      simp [Pure.pure, fillMPure]
  | complex cfg =>
      have hf := findFirstElem_all_none (pathList cfg.path) dom
        (fun p hp => h p (by simpa [configPaths] using hp))
      refine ⟨(pathList cfg.path).map DomOp.findOp, ?_⟩
      simp only [tryFillWithSelector, fillComplexSelector, fillMBind_ok_apply hf]
      simp [Pure.pure, fillMPure]

theorem tryConfigList_all_absent (fieldName : String) (value : JSValue)
    (atsConfig : ATSConfig) (cs : List SelectorConfig) (dom : Dom)
    (h : ∀ c ∈ cs, ∀ p ∈ configPaths c, dom.findElem p = none) :
    (tryConfigList fieldName value atsConfig cs dom).1 = Except.ok false := by
  induction cs with
  | nil => rfl
  | cons c rest ih =>
      obtain ⟨ops, hc⟩ := tryFillWithSelector_absent fieldName c value atsConfig dom
        (h c (List.mem_cons_self _ _))
      have hatt : mAttempt (tryFillWithSelector fieldName c value atsConfig) dom =
          (Except.ok (Except.ok false), ops) := by
        simp [mAttempt, hc]
      simp only [tryConfigList, fillMBind_ok_apply hatt]
      simpa using ih (fun c' hc' => h c' (List.mem_cons_of_mem _ hc'))

/-- C5: a field whose candidate locators are all absent from the DOM is
skipped without an exception escaping `fillField`; and a field whose
resolved value is skip-worthy (falsy other than `0`/`false`) is skipped
immediately, with an empty DOM-interaction trace — no locator is
attempted. -/
theorem fillField_skip_no_throw (fieldName : String) (entry : SelectorEntry)
    (data : TailoredData) (atsConfig : ATSConfig) (dom : Dom) :
    ((∀ p ∈ candidatePaths entry, dom.findElem p = none) →
      (fillField fieldName entry data atsConfig dom).1 = Except.ok false) ∧
    (skipValueCheck (getValueForField fieldName data) = true →
      fillField fieldName entry data atsConfig dom = (Except.ok false, [])) := by
  constructor
  · intro h
    by_cases hres : (fieldName == "resume") = true
    · simp only [fillField, if_pos hres]
      rfl
    · simp only [fillField, if_neg hres]
      by_cases hskip : skipValueCheck (getValueForField fieldName data) = true
      · rw [if_pos hskip]
        rfl
      · rw [if_neg hskip]
        exact tryConfigList_all_absent _ _ _ _ dom
          (fun c hc p hp => h p (List.mem_flatMap.mpr ⟨c, hc, hp⟩))
  · intro h2
    by_cases hres : (fieldName == "resume") = true
    · simp only [fillField, if_pos hres]
      rfl
    · simp only [fillField, if_neg hres, if_pos h2]
      rfl

/-- Witness for C5: a concrete field with one absent locator is skipped
without an exception, and a concrete field with an undefined value is
skipped with an empty trace. -/
theorem fillField_skip_no_throw_witness :
    (fillField "email" (SelectorEntry.one (SelectorConfig.simple "//e")) sampleData
      (ATSConfig.mk none none none []) emptyDom).1 = Except.ok false ∧
    fillField "phone" (SelectorEntry.one (SelectorConfig.simple "//p")) sampleData
      (ATSConfig.mk none none none []) emptyDom = (Except.ok false, []) :=
  ⟨(fillField_skip_no_throw "email" (SelectorEntry.one (SelectorConfig.simple "//e"))
      sampleData (ATSConfig.mk none none none []) emptyDom).1 (fun _ _ => rfl),
   (fillField_skip_no_throw "phone" (SelectorEntry.one (SelectorConfig.simple "//p"))
      sampleData (ATSConfig.mk none none none []) emptyDom).2 (by decide)⟩

/-- C8: in an action sequence, a step (other than `uploadResume`) with a
truthy wait timeout and a truthy effective path whose wait times out
returns a failed fill for the field when `allowFailure` is unset —
aborting only that field's attempt, as an ordinary `false` result rather
than an exception — and lets the sequence continue on the current element
when `allowFailure` is set. -/
theorem executeActions_wait_timeout (current : DomElem) (cfg : ComplexConfig)
    (action : FillAction) (rest : List FillAction) (value : JSValue)
    (atsConfig : ATSConfig) (dom : Dom) (p : String) (t : Int) (ops0 : List DomOp)
    (hmethod : (action.method == some "uploadResume") = false)
    (hpath : actionEffPath cfg action = some p) (hp : (p == "") = false)
    (htime : action.time = some t) (ht : (t == 0) = false)
    (hwait : dom.waitElem [p] t = none)
    (hact : executeAction current action value atsConfig dom = (Except.ok (), ops0)) :
    (action.allowFailure = false →
      (executeActions current cfg (action :: rest) value atsConfig dom).1 = Except.ok false) ∧
    (action.allowFailure = true →
      (executeActions current cfg (action :: rest) value atsConfig dom).1 =
        (executeActions current cfg rest value atsConfig dom).1) := by
  have hmw : mWait [p] t dom = (Except.ok (none : Option DomElem), [DomOp.waitOp [p] t]) := by
    simp [mWait, hwait]
  constructor
  · intro haf
    simp only [executeActions, hmethod, Bool.false_eq_true, if_false,
      fillMBind_ok_apply hact, htime, hpath, ht, hp, Bool.not_false, Bool.and_self,
      if_true, fillMBind_ok_apply hmw, haf]
    rfl
  · intro haf
    simp only [executeActions, hmethod, Bool.false_eq_true, if_false,
      fillMBind_ok_apply hact, htime, hpath, ht, hp, Bool.not_false, Bool.and_self,
      if_true, fillMBind_ok_apply hmw, haf]

/-- Witness for C8: a concrete click step with a 1000ms wait for an
absent element, exercised with `allowFailure` unset. -/
theorem executeActions_wait_timeout_witness :
    (executeActions (DomElem.mk 0)
      (ComplexConfig.mk (PathSpec.single "//base") none none none)
      [FillAction.mk (some "click") (some "//opt") none (some 1000) false none]
      (JSValue.strv "v") (ATSConfig.mk none none none []) emptyDom).1 = Except.ok false :=
  (executeActions_wait_timeout (DomElem.mk 0)
    (ComplexConfig.mk (PathSpec.single "//base") none none none)
    (FillAction.mk (some "click") (some "//opt") none (some 1000) false none)
    [] (JSValue.strv "v") (ATSConfig.mk none none none []) emptyDom "//opt" 1000
    [DomOp.elemAct (DomElem.mk 0) "click"]
    rfl (by decide) rfl rfl rfl rfl rfl).1 rfl

/-- C10: `fillField` on the field named `resume` returns a skip (`false`)
with no exception and an empty DOM-interaction trace, in every
environment and for every configuration and data map; consequently a
platform whose selector map consists of the `resume` entry reports
`filledCount = 0, skipCount = 1` even though the separate file uploader
may later succeed. -/
theorem fillField_resume_always_skipped (entry : SelectorEntry) (data : TailoredData)
    (atsConfig : ATSConfig) (dom : Dom) (platformName : String) :
    fillField "resume" entry data atsConfig dom = (Except.ok false, []) ∧
    fill ⟨platformName, { atsConfig with inputSelectors := [("resume", entry)] }⟩ data dom =
      (Except.ok ⟨0, 1⟩, []) := by
  exact ⟨rfl, rfl⟩

end JobSearch
